import Mathlib

/-!
Shallow embedding of the Fractalide agent runtime
(src/modules/rs/rustfbp/src/agent.rs).

The `agent!` macro generates, for a declarative list of ports, the concrete
agent struct `ThisAgent` together with the `Agent` trait implementation
(`is_input_ports`, `connect`, `connect_array`, `add_inarr_element`), the
constructor `new`/`create_agent`, the schema-introspection entry points
(`get_schema_input`, `get_schema_input_array`, `get_schema_output`,
`get_schema_output_array`) and, when an option port is declared,
`recv_option`/`try_recv_option`.  The companion macro `send_action!`
routes a tagged message through an output-array port.

We embed the macro-generated code generically over the declaration: an
`AgentDecl` records the port lists the macro was instantiated with, and the
generated match arms become association-list lookups over those lists
(a Rust `match` with one literal string pattern per declared name, first
arm wins, `_` falling through to `PortDontExist`).
-/

namespace Fractalide

/-- A `MsgSender<T>` handle: the schema (contract) identifier of `T` plus the
identity of the channel the handle sends into. -/
structure Handle where
  schema : String
  chan : Nat
deriving DecidableEq, Repr

/-- A `MsgReceiver<T>` handle.  Modelled from the spec: `MsgReceiver::new`
lives in the (absent) ports module; per the spec a receive-handle is created
together with its paired send-handle and carries a wake flag (`true` wakes the
owning agent on message arrival).  The embedding records the schema, the wake
flag passed at the creation site, and the channel identity shared with the
paired send-handle. -/
structure Recv where
  schema : String
  wake : Bool
  chan : Nat
deriving DecidableEq, Repr

/-- A `Box<Any + Send>`: a type-erased box that concretely holds either a
`MsgSender<T>` or a `MsgReceiver<T>`. -/
inductive AnyBox where
  | sender (h : Handle)
  | receiver (r : Recv)
deriving DecidableEq, Repr

/-- `Box::downcast::<MsgSender<c>>`: succeeds exactly when the box holds a
sender whose contract is `c`. -/
def downcastSender (b : AnyBox) (c : String) : Option Handle :=
  match b with
  | .sender h => if h.schema = c then some h else none
  | .receiver _ => none

/-- `Box::downcast::<MsgReceiver<c>>`: succeeds exactly when the box holds a
receiver whose contract is `c`. -/
def downcastReceiver (b : AnyBox) (c : String) : Option Recv :=
  match b with
  | .sender _ => none
  | .receiver r => if r.schema = c then some r else none

/-- The port declaration the `agent!` macro was instantiated with: each list
pairs a port name with its contract (schema identifier), and the option and
accumulator ports are optional single contracts. -/
structure AgentDecl where
  input : List (String × String)
  inarr : List (String × String)
  output : List (String × String)
  outarr : List (String × String)
  option : Option String
  accumulator : Option String
deriving DecidableEq, Repr

/-- First-match association lookup: the generated Rust `match port { "n1" =>
..., "n2" => ..., _ => Err }` tries the declared names in order. -/
def alookup {β : Type} : List (String × β) → String → Option β
  | [], _ => none
  | (k, v) :: rest, q => if k = q then some v else alookup rest q

/-- Assign through the struct field selected by the first matching arm:
`self.output.$name = v` for the first declared occurrence of the name. -/
def aupdate {β : Type} : List (String × β) → String → β → List (String × β)
  | [], _, _ => []
  | (k, v) :: rest, q, w =>
    if k = q then (k, w) :: rest else (k, v) :: aupdate rest q w

/-- `HashMap::insert`: replace the value under an existing key, otherwise add
the key. -/
def ainsert {β : Type} : List (String × β) → String → β → List (String × β)
  | [], q, w => [(q, w)]
  | (k, v) :: rest, q, w =>
    if k = q then (k, w) :: rest else (k, v) :: ainsert rest q w

/-- Apply `f` to the map stored in the struct field selected by the first
matching arm (`self.outarr.$name.insert(...)`). -/
def amodify {β : Type} : List (String × β) → String → (β → β) → List (String × β)
  | [], _, _ => []
  | (k, v) :: rest, q, f =>
    if k = q then (k, f v) :: rest else (k, v) :: amodify rest q f

/-- A message: the embedding keeps only the routing tag (`action` field) used
by `send_action!`; the payload is opaque to all the code modelled here. -/
structure Msg where
  action : String
deriving DecidableEq, Repr

/-- The macro-generated `ThisAgent` struct: the `Input`, `Output`, `Inarr`
and `Outarr` port bundles (one struct field per declared name, embedded as an
association list over the declared names), the cached option message, and the
declaration the macro was instantiated with (static in Rust, carried here so
the generated match arms can be stated generically). -/
structure ThisAgent where
  decl : AgentDecl
  id : Nat
  input : List (String × Recv)
  inputOption : Option Recv
  inputAcc : Option Recv
  output : List (String × Option Handle)
  outputAcc : Option Handle
  inarr : List (String × List (String × Recv))
  outarr : List (String × List (String × Handle))
  optionMsg : Option Msg
deriving DecidableEq, Repr

/-- The runtime error relevant to the embedded entry points:
`result::Error::PortDontExist`. -/
inductive RtError where
  | portDontExist (p : String)
deriving DecidableEq, Repr

/-- Outcome of a `&mut self` method returning `Result<()>`: `ok` with the new
state, `err` with the (unchanged) state carried by `&mut self`, or a panic
(`expect` on a failed downcast). -/
inductive Outcome (α : Type) where
  | ok (a : α)
  | err (e : RtError) (a : α)
  | panic (msg : String)
deriving DecidableEq, Repr

/-- `Agent::is_input_ports`: the macro emits an unconditional `return true`
per declared input and per declared input-array name, then `false`. -/
def is_input_ports (a : ThisAgent) : Bool :=
  !a.decl.input.isEmpty || !a.decl.inarr.isEmpty

/-- `Agent::connect`: match the port against the declared scalar output
names; on a match, downcast the box to `MsgSender<contract>` (panicking with
"cannot downast" on failure) and store it in the output field; otherwise
return `PortDontExist`. -/
def connect (a : ThisAgent) (port : String) (sender : AnyBox) :
    Outcome ThisAgent :=
  match alookup a.decl.output port with
  | some c =>
    match downcastSender sender c with
    | some h => .ok { a with output := aupdate a.output port (some h) }
    | none => .panic "cannot downast"
  | none => .err (.portDontExist port) a

/-- `Agent::connect_array`: match the port against the declared output-array
names; on a match, downcast (panicking with "cannot downcast" on failure) and
`insert` the sender under `element` in that port's map; otherwise return
`PortDontExist`. -/
def connect_array (a : ThisAgent) (port : String) (element : String)
    (sender : AnyBox) : Outcome ThisAgent :=
  match alookup a.decl.outarr port with
  | some c =>
    match downcastSender sender c with
    | some h =>
      .ok { a with outarr := amodify a.outarr port (fun m => ainsert m element h) }
    | none => .panic "cannot downcast"
  | none => .err (.portDontExist port) a

/-- `Agent::add_inarr_element`: match the port against the declared
input-array names; on a match, downcast to `MsgReceiver<contract>` (panicking
with "cannot downcast" on failure) and `insert` the receiver under `element`;
otherwise return `PortDontExist`. -/
def add_inarr_element (a : ThisAgent) (port : String) (element : String)
    (recv : AnyBox) : Outcome ThisAgent :=
  match alookup a.decl.inarr port with
  | some c =>
    match downcastReceiver recv c with
    | some r =>
      .ok { a with inarr := amodify a.inarr port (fun m => ainsert m element r) }
    | none => .panic "cannot downcast"
  | none => .err (.portDontExist port) a

/-- `get_schema_input`: one arm per declared scalar input, then an `"option"`
arm when an option port is declared, then an `"accumulator"` arm when an
accumulator port is declared, then `PortDontExist`. -/
def get_schema_input (d : AgentDecl) (port : String) : Except RtError String :=
  match alookup d.input port with
  | some c => .ok c
  | none =>
    match d.option with
    | some c =>
      if port = "option" then .ok c else
        match d.accumulator with
        | some c2 => if port = "accumulator" then .ok c2 else .error (.portDontExist port)
        | none => .error (.portDontExist port)
    | none =>
      match d.accumulator with
      | some c2 => if port = "accumulator" then .ok c2 else .error (.portDontExist port)
      | none => .error (.portDontExist port)

/-- `get_schema_input_array`: one arm per declared input-array name, then
`PortDontExist`. -/
def get_schema_input_array (d : AgentDecl) (port : String) :
    Except RtError String :=
  match alookup d.inarr port with
  | some c => .ok c
  | none => .error (.portDontExist port)

/-- `get_schema_output`: one arm per declared scalar output name, then
`PortDontExist`. -/
def get_schema_output (d : AgentDecl) (port : String) : Except RtError String :=
  match alookup d.output port with
  | some c => .ok c
  | none => .error (.portDontExist port)

/-- `get_schema_output_array`: one arm per declared output-array name, then
`PortDontExist`. -/
def get_schema_output_array (d : AgentDecl) (port : String) :
    Except RtError String :=
  match alookup d.outarr port with
  | some c => .ok c
  | none => .error (.portDontExist port)

/-- The destination chosen by `send_action!`: either the sub-channel handle
found in the output-array map, or the scalar output field of the same base
name (an `Option<MsgSender>` — `OutputSend` lets the send go through an
optionally connected scalar output). -/
inductive SendDest where
  | sub (h : Handle)
  | scalar (o : Option Handle)
deriving DecidableEq, Repr

/-- `send_action!`: `$agent.outarr.$port.get(&$msg.action)` — if the
output-array map of the port has a sender under the message's routing tag,
send there, else send on `$agent.output.$port`.  `m` and `o` are the two
struct fields the macro names (`outarr.$port` and `output.$port`). -/
def send_action (m : List (String × Handle)) (o : Option Handle) (msg : Msg) :
    SendDest :=
  match alookup m msg.action with
  | some s => .sub s
  | none => .scalar o

/-- `new`: eagerly create the option, accumulator and scalar-input receive
channels (in that source order), record their cloneable send-handles in the
`senders` map, and build the agent with unconnected outputs, empty array
maps, no cached option message, and the accumulator output pre-connected to
the accumulator channel's send half.  Channel identities are assigned by a
fixed scheme (option ↦ 0, accumulator ↦ 1, i-th input ↦ 2+i): each
`MsgReceiver::new` call yields a fresh pair sharing one channel.  The wake
flags are the literal arguments at the creation sites: `false` for option and
accumulator, `true` for every scalar input. -/
def new (d : AgentDecl) (id : Nat) :
    ThisAgent × List (String × AnyBox) :=
  let optPair : Option (Recv × Handle) :=
    d.option.map (fun c => (⟨c, false, 0⟩, ⟨c, 0⟩))
  let accPair : Option (Recv × Handle) :=
    d.accumulator.map (fun c => (⟨c, false, 1⟩, ⟨c, 1⟩))
  let inputTriples : List (String × Recv × Handle) :=
    d.input.enum.map (fun p => (p.2.1, ⟨p.2.2, true, 2 + p.1⟩, ⟨p.2.2, 2 + p.1⟩))
  let s0 : List (String × AnyBox) := []
  let s1 := match optPair with
    | some p => ainsert s0 "option" (.sender p.2)
    | none => s0
  let s2 := match accPair with
    | some p => ainsert s1 "accumulator" (.sender p.2)
    | none => s1
  let s3 := inputTriples.foldl (fun acc t => ainsert acc t.1 (.sender t.2.2)) s2
  let agent : ThisAgent :=
    { decl := d
      id := id
      input := inputTriples.map (fun t => (t.1, t.2.1))
      inputOption := optPair.map Prod.fst
      inputAcc := accPair.map Prod.fst
      output := d.output.map (fun p => (p.1, none))
      outputAcc := accPair.map (fun p => p.2)
      inarr := d.inarr.map (fun p => (p.1, []))
      outarr := d.outarr.map (fun p => (p.1, []))
      optionMsg := none }
  (agent, s3)

/-- `create_agent`: the `#[no_mangle]` module entry point, which just calls
`new`. -/
def create_agent (d : AgentDecl) (id : Nat) :
    ThisAgent × List (String × AnyBox) :=
  new d id

/-- The loop body of `try_recv_option`: repeatedly `try_recv` on the option
channel, overwriting `option_msg` with each received message, until the
channel is empty.  `pending` is the queue of the option channel, oldest
first; the result is the final cached message. -/
def drain_option : List Msg → Option Msg → Option Msg
  | [], cached => cached
  | m :: rest, _ => drain_option rest (some m)

/-- `try_recv_option`: drain the channel into the cache and return the cached
message; the first component is the returned `Option<$option>`, the second
the channel queue afterwards (empty), the third the cache afterwards. -/
def try_recv_option (pending : List Msg) (cached : Option Msg) :
    Option Msg × List Msg × Option Msg :=
  let c := drain_option pending cached
  (c, [], c)

/-- Result of `recv_option`: either return a message (with the cache
afterwards), or reach the blocking `self.input.option.recv()` call with the
channel empty and nothing ever cached. -/
inductive RecvOptionResult where
  | ret (m : Msg) (cached : Option Msg)
  | blocks
deriving DecidableEq, Repr

/-- `recv_option`: first `try_recv_option` (drain into the cache); if the
cache is still `None`, block on the channel (embedded as `.blocks`); then
return a clone of the cached message. -/
def recv_option (pending : List Msg) (cached : Option Msg) :
    RecvOptionResult :=
  match drain_option pending cached with
  | some m => .ret m (some m)
  | none => .blocks

/-- One wiring operation, for stating invariants over arbitrary sequences of
`connect` / `connect_array` / `add_inarr_element` calls. -/
inductive WireOp where
  | wconnect (port : String) (sender : AnyBox)
  | wconnectArray (port : String) (element : String) (sender : AnyBox)
  | waddInarr (port : String) (element : String) (recv : AnyBox)
deriving Repr

/-- The agent state after one wiring operation: the new state on `Ok`, the
unchanged state on `Err` (the method takes `&mut self`), and `none` when the
operation panics (the process dies; no later call observes a state). -/
def stateAfter (o : Outcome ThisAgent) : Option ThisAgent :=
  match o with
  | .ok a => some a
  | .err _ a => some a
  | .panic _ => none

/-- Run one wiring operation on an agent. -/
def applyWireOp (a : ThisAgent) : WireOp → Option ThisAgent
  | .wconnect p b => stateAfter (connect a p b)
  | .wconnectArray p k b => stateAfter (connect_array a p k b)
  | .waddInarr p k b => stateAfter (add_inarr_element a p k b)

/-- Run a sequence of wiring operations. -/
def applyWireOps (a : ThisAgent) : List WireOp → Option ThisAgent
  | [] => some a
  | op :: rest =>
    match applyWireOp a op with
    | some a2 => applyWireOps a2 rest
    | none => none

/-- Well-formedness of a declaration, as enforced by the Rust compiler on the
macro expansion: the generated `Input`, `Inarr`, `Output` and `Outarr`
structs have one field per declared name, so names within a category are
distinct, and a scalar input may not be named `option` (resp. `accumulator`)
when an option (resp. accumulator) port is declared, since the `Input` struct
would then have two fields of that name. -/
def AgentDecl.wf (d : AgentDecl) : Prop :=
  (d.input.map Prod.fst).Nodup ∧
  (d.inarr.map Prod.fst).Nodup ∧
  (d.output.map Prod.fst).Nodup ∧
  (d.outarr.map Prod.fst).Nodup ∧
  (d.option.isSome = true → "option" ∉ d.input.map Prod.fst) ∧
  (d.accumulator.isSome = true → "accumulator" ∉ d.input.map Prod.fst)

instance (d : AgentDecl) : Decidable d.wf := by
  unfold AgentDecl.wf
  infer_instance

/-! ### Association-list lemmas -/

theorem alookup_eq_none {β : Type} (l : List (String × β)) (q : String)
    (h : q ∉ l.map Prod.fst) : alookup l q = none := by
  induction l with
  | nil => rfl
  | cons p rest ih =>
    obtain ⟨k, v⟩ := p
    simp only [List.map_cons, List.mem_cons, not_or] at h
    have hne : ¬(k = q) := fun hq => h.1 hq.symm
    simp only [alookup, if_neg hne]
    exact ih h.2

theorem alookup_eq_some_of_mem {β : Type} (l : List (String × β))
    (q : String) (v : β) (hnd : (l.map Prod.fst).Nodup)
    (hm : (q, v) ∈ l) : alookup l q = some v := by
  induction l with
  | nil => cases hm
  | cons p rest ih =>
    obtain ⟨k, w⟩ := p
    simp only [List.map_cons, List.nodup_cons] at hnd
    rcases List.mem_cons.mp hm with h | h
    · cases h
      simp [alookup]
    · have hne : ¬(k = q) := by
        intro he
        exact hnd.1 (he ▸ List.mem_map.mpr ⟨(q, v), h, rfl⟩)
      simp only [alookup, if_neg hne]
      exact ih hnd.2 h

theorem alookup_ainsert_self {β : Type} (l : List (String × β)) (q : String)
    (w : β) : alookup (ainsert l q w) q = some w := by
  induction l with
  | nil => simp [ainsert, alookup]
  | cons p rest ih =>
    obtain ⟨k, v⟩ := p
    by_cases h : k = q
    · simp [ainsert, alookup, h]
    · simp only [ainsert, if_neg h, alookup, if_neg h]
      exact ih

theorem alookup_ainsert_ne {β : Type} (l : List (String × β))
    (q q' : String) (w : β) (h : q' ≠ q) :
    alookup (ainsert l q w) q' = alookup l q' := by
  have hne : ¬(q = q') := fun he => h he.symm
  induction l with
  | nil => simp [ainsert, alookup, hne]
  | cons p rest ih =>
    obtain ⟨k, v⟩ := p
    by_cases hp : k = q
    · subst hp
      simp [ainsert, alookup, hne]
    · simp only [ainsert, if_neg hp, alookup]
      by_cases hp' : k = q'
      · simp [hp']
      · simp only [if_neg hp']
        exact ih

theorem ainsert_of_not_mem {β : Type} (l : List (String × β)) (q : String)
    (w : β) (h : q ∉ l.map Prod.fst) : ainsert l q w = l ++ [(q, w)] := by
  induction l with
  | nil => rfl
  | cons p rest ih =>
    obtain ⟨k, v⟩ := p
    simp only [List.map_cons, List.mem_cons, not_or] at h
    have hne : ¬(k = q) := fun hq => h.1 hq.symm
    simp only [ainsert, if_neg hne, List.cons_append]
    rw [ih h.2]

theorem alookup_amodify_self {β : Type} (l : List (String × β)) (q : String)
    (f : β → β) : alookup (amodify l q f) q = (alookup l q).map f := by
  induction l with
  | nil => rfl
  | cons p rest ih =>
    obtain ⟨k, v⟩ := p
    by_cases h : k = q
    · simp [amodify, alookup, h]
    · simp only [amodify, if_neg h, alookup, if_neg h]
      exact ih

theorem alookup_amodify_ne {β : Type} (l : List (String × β))
    (q q' : String) (f : β → β) (h : q' ≠ q) :
    alookup (amodify l q f) q' = alookup l q' := by
  have hne : ¬(q = q') := fun he => h he.symm
  induction l with
  | nil => rfl
  | cons p rest ih =>
    obtain ⟨k, v⟩ := p
    by_cases hp : k = q
    · subst hp
      simp [amodify, alookup, hne]
    · simp only [amodify, if_neg hp, alookup]
      by_cases hp' : k = q'
      · simp [hp']
      · simp only [if_neg hp']
        exact ih

theorem alookup_map_const {β γ : Type} (l : List (String × γ)) (q : String)
    (w : β) (h : q ∈ l.map Prod.fst) :
    alookup (l.map (fun p => (p.1, w))) q = some w := by
  induction l with
  | nil => cases h
  | cons p rest ih =>
    obtain ⟨k, v⟩ := p
    simp only [List.map_cons, List.mem_cons] at h
    by_cases hp : k = q
    · simp [alookup, hp]
    · simp only [List.map_cons, alookup, if_neg hp]
      exact ih (h.resolve_left (fun he => hp he.symm))

theorem foldl_ainsert_eq_append {β : Type} (ts : List (String × β)) :
    ∀ s : List (String × β), (ts.map Prod.fst).Nodup →
    (∀ k ∈ ts.map Prod.fst, k ∉ s.map Prod.fst) →
    ts.foldl (fun acc t => ainsert acc t.1 t.2) s = s ++ ts := by
  induction ts with
  | nil => intro s _ _; simp
  | cons t rest ih =>
    intro s hnd hdisj
    simp only [List.map_cons, List.nodup_cons] at hnd
    have hfresh : t.1 ∉ s.map Prod.fst :=
      hdisj t.1 (by simp)
    simp only [List.foldl_cons]
    rw [ainsert_of_not_mem s t.1 t.2 hfresh]
    rw [ih (s ++ [(t.1, t.2)]) hnd.2]
    · simp
    · intro k hk
      simp only [List.map_append, List.mem_append, List.map_cons, not_or]
      constructor
      · exact hdisj k (by simp [hk])
      · simp only [List.map_nil, List.mem_cons, List.not_mem_nil]
        intro hcontra
        rcases hcontra with hc | hc
        · exact hnd.1 (hc ▸ hk)
        · exact hc

/-! ### Concrete declarations used by the witnesses -/

/-- A sample declaration with one port of every category, as an `agent!`
instantiation would produce. -/
def sampleDecl : AgentDecl :=
  { input := [("inp", "prim_text")]
    inarr := [("ins", "prim_text")]
    output := [("out", "prim_text")]
    outarr := [("outs", "prim_text")]
    option := some "prim_text"
    accumulator := some "prim_nat" }

/-- The sample agent freshly constructed by `new`. -/
def sampleAgent : ThisAgent := (new sampleDecl 7).1

/-- A declaration with no input and no input-array port, but with option and
accumulator ports. -/
def optOnlyDecl : AgentDecl :=
  { input := []
    inarr := []
    output := []
    outarr := []
    option := some "prim_text"
    accumulator := some "prim_nat" }

/-- The agent constructed from `optOnlyDecl`. -/
def optOnlyAgent : ThisAgent := (new optOnlyDecl 1).1

/-! ### Claims -/

/-- C1: for every port name that the agent does not declare, each of
`connect`, `connect_array` and `add_inarr_element` returns the recoverable
`PortDontExist` error, and the agent state carried out of the `&mut self`
call is exactly the state passed in: no scalar output, output-array map or
input-array map is touched. -/
theorem claim_C1 (a : ThisAgent) (p : String) (b : AnyBox) (k : String) :
    (p ∉ a.decl.output.map Prod.fst →
      connect a p b = .err (.portDontExist p) a) ∧
    (p ∉ a.decl.outarr.map Prod.fst →
      connect_array a p k b = .err (.portDontExist p) a) ∧
    (p ∉ a.decl.inarr.map Prod.fst →
      add_inarr_element a p k b = .err (.portDontExist p) a) := by
  refine ⟨fun h => ?_, fun h => ?_, fun h => ?_⟩
  · simp [connect, alookup_eq_none _ _ h]
  · simp [connect_array, alookup_eq_none _ _ h]
  · simp [add_inarr_element, alookup_eq_none _ _ h]

/-- Witness for C1 at the sample agent and the undeclared name `"nope"`. -/
theorem claim_C1_witness :
    connect sampleAgent "nope" (.sender ⟨"prim_text", 9⟩)
        = .err (.portDontExist "nope") sampleAgent ∧
    connect_array sampleAgent "nope" "k" (.sender ⟨"prim_text", 9⟩)
        = .err (.portDontExist "nope") sampleAgent ∧
    add_inarr_element sampleAgent "nope" "k" (.receiver ⟨"prim_text", true, 9⟩)
        = .err (.portDontExist "nope") sampleAgent :=
  ⟨(claim_C1 sampleAgent "nope" (.sender ⟨"prim_text", 9⟩) "k").1 (by decide),
   (claim_C1 sampleAgent "nope" (.sender ⟨"prim_text", 9⟩) "k").2.1 (by decide),
   (claim_C1 sampleAgent "nope" (.receiver ⟨"prim_text", true, 9⟩) "k").2.2 (by decide)⟩

/-- C2: `send_action!` sends on the output-array sub-channel whose key equals
the message's routing tag when the map contains one, and otherwise sends on
the scalar output field of the same base name. -/
theorem claim_C2 (m : List (String × Handle)) (o : Option Handle) (msg : Msg) :
    (∀ s, alookup m msg.action = some s → send_action m o msg = .sub s) ∧
    (alookup m msg.action = none → send_action m o msg = .scalar o) := by
  constructor
  · intro s hs
    simp [send_action, hs]
  · intro h
    simp [send_action, h]

/-- Witness for C2: a tag `"error"` with a connected key `"error"` goes to
the sub-channel; the tag `"ok"` with no matching key falls back to the
scalar output. -/
theorem claim_C2_witness :
    send_action [("error", ⟨"prim_text", 3⟩)] none ⟨"error"⟩
        = .sub ⟨"prim_text", 3⟩ ∧
    send_action [("error", ⟨"prim_text", 3⟩)] (some ⟨"prim_text", 4⟩) ⟨"ok"⟩
        = .scalar (some ⟨"prim_text", 4⟩) :=
  ⟨(claim_C2 [("error", ⟨"prim_text", 3⟩)] none ⟨"error"⟩).1 ⟨"prim_text", 3⟩ rfl,
   (claim_C2 [("error", ⟨"prim_text", 3⟩)] (some ⟨"prim_text", 4⟩) ⟨"ok"⟩).2 rfl⟩

/-- C3: on a declared port, a handle whose concrete type does not downcast to
the port's declared contract makes `connect` / `connect_array` /
`add_inarr_element` panic (`expect` on the failed downcast) instead of
returning a recoverable `Result` error. -/
theorem claim_C3 (a : ThisAgent) (p c k : String) (b : AnyBox) :
    (alookup a.decl.output p = some c → downcastSender b c = none →
      connect a p b = .panic "cannot downast") ∧
    (alookup a.decl.outarr p = some c → downcastSender b c = none →
      connect_array a p k b = .panic "cannot downcast") ∧
    (alookup a.decl.inarr p = some c → downcastReceiver b c = none →
      add_inarr_element a p k b = .panic "cannot downcast") := by
  refine ⟨fun h1 h2 => ?_, fun h1 h2 => ?_, fun h1 h2 => ?_⟩
  · simp [connect, h1, h2]
  · simp [connect_array, h1, h2]
  · simp [add_inarr_element, h1, h2]

/-- Witness for C3: on the sample agent, a receiver box given to `connect`,
a sender of the wrong schema given to `connect_array`, and a sender box
given to `add_inarr_element` all panic. -/
theorem claim_C3_witness :
    connect sampleAgent "out" (.receiver ⟨"prim_text", true, 9⟩)
        = .panic "cannot downast" ∧
    connect_array sampleAgent "outs" "k" (.sender ⟨"prim_bool", 9⟩)
        = .panic "cannot downcast" ∧
    add_inarr_element sampleAgent "ins" "k" (.sender ⟨"prim_text", 9⟩)
        = .panic "cannot downcast" :=
  ⟨(claim_C3 sampleAgent "out" "prim_text" "k"
      (.receiver ⟨"prim_text", true, 9⟩)).1 (by decide) (by decide),
   (claim_C3 sampleAgent "outs" "prim_text" "k"
      (.sender ⟨"prim_bool", 9⟩)).2.1 (by decide) (by decide),
   (claim_C3 sampleAgent "ins" "prim_text" "k"
      (.sender ⟨"prim_text", 9⟩)).2.2 (by decide) (by decide)⟩

/-- C5: `is_input_ports` is true exactly when at least one scalar input or
input-array port is declared; an agent declaring only option and accumulator
ports reports false. -/
theorem claim_C5 (a : ThisAgent) :
    (is_input_ports a = true ↔ (a.decl.input ≠ [] ∨ a.decl.inarr ≠ [])) ∧
    (a.decl.input = [] → a.decl.inarr = [] → is_input_ports a = false) := by
  constructor
  · simp [is_input_ports, List.isEmpty_iff, or_comm]
  · intro h1 h2
    simp [is_input_ports, h1, h2]

/-- Witness for C5: the sample agent has inputs; the agent declaring only
option and accumulator ports reports false. -/
theorem claim_C5_witness :
    is_input_ports sampleAgent = true ∧ is_input_ports optOnlyAgent = false :=
  ⟨(claim_C5 sampleAgent).1.mpr (Or.inl (by decide)),
   (claim_C5 optOnlyAgent).2 (by decide) (by decide)⟩

/-- C4: each schema-introspection entry point answers every declared name of
its category (including `"option"` and `"accumulator"` for scalar input)
with the declared schema identifier, and every other name with
`PortDontExist`. -/
theorem claim_C4 (d : AgentDecl) (hwf : d.wf) :
    (∀ p c, (p, c) ∈ d.input → get_schema_input d p = .ok c) ∧
    (∀ c, d.option = some c → get_schema_input d "option" = .ok c) ∧
    (∀ c, d.accumulator = some c → get_schema_input d "accumulator" = .ok c) ∧
    (∀ p, p ∉ d.input.map Prod.fst →
      (d.option.isSome = true → p ≠ "option") →
      (d.accumulator.isSome = true → p ≠ "accumulator") →
      get_schema_input d p = .error (.portDontExist p)) ∧
    (∀ p c, (p, c) ∈ d.inarr → get_schema_input_array d p = .ok c) ∧
    (∀ p, p ∉ d.inarr.map Prod.fst →
      get_schema_input_array d p = .error (.portDontExist p)) ∧
    (∀ p c, (p, c) ∈ d.output → get_schema_output d p = .ok c) ∧
    (∀ p, p ∉ d.output.map Prod.fst →
      get_schema_output d p = .error (.portDontExist p)) ∧
    (∀ p c, (p, c) ∈ d.outarr → get_schema_output_array d p = .ok c) ∧
    (∀ p, p ∉ d.outarr.map Prod.fst →
      get_schema_output_array d p = .error (.portDontExist p)) := by
  obtain ⟨hnd_in, hnd_ia, hnd_out, hnd_oa, hopt, hacc⟩ := hwf
  refine ⟨?_, ?_, ?_, ?_, ?_, ?_, ?_, ?_, ?_, ?_⟩
  · intro p c hm
    simp [get_schema_input, alookup_eq_some_of_mem _ _ _ hnd_in hm]
  · intro c hc
    have h5 : "option" ∉ d.input.map Prod.fst := hopt (by simp [hc])
    simp [get_schema_input, alookup_eq_none _ _ h5, hc]
  · intro c hc
    have h6 : "accumulator" ∉ d.input.map Prod.fst := hacc (by simp [hc])
    have hl := alookup_eq_none d.input "accumulator" h6
    cases hdo : d.option with
    | some c1 =>
      simp [get_schema_input, hl, hdo, hc,
        (by decide : ("accumulator" : String) ≠ "option")]
    | none => simp [get_schema_input, hl, hdo, hc]
  · intro p hp h2 h3
    have hl := alookup_eq_none d.input p hp
    cases hdo : d.option with
    | some c =>
      have hpo : ¬(p = "option") := h2 (by simp [hdo])
      cases hda : d.accumulator with
      | some c2 =>
        have hpa : ¬(p = "accumulator") := h3 (by simp [hda])
        simp [get_schema_input, hl, hdo, hda, hpo, hpa]
      | none => simp [get_schema_input, hl, hdo, hda, hpo]
    | none =>
      cases hda : d.accumulator with
      | some c2 =>
        have hpa : ¬(p = "accumulator") := h3 (by simp [hda])
        simp [get_schema_input, hl, hdo, hda, hpa]
      | none => simp [get_schema_input, hl, hdo, hda]
  · intro p c hm
    simp [get_schema_input_array, alookup_eq_some_of_mem _ _ _ hnd_ia hm]
  · intro p hp
    simp [get_schema_input_array, alookup_eq_none _ _ hp]
  · intro p c hm
    simp [get_schema_output, alookup_eq_some_of_mem _ _ _ hnd_out hm]
  · intro p hp
    simp [get_schema_output, alookup_eq_none _ _ hp]
  · intro p c hm
    simp [get_schema_output_array, alookup_eq_some_of_mem _ _ _ hnd_oa hm]
  · intro p hp
    simp [get_schema_output_array, alookup_eq_none _ _ hp]

/-- Witness for C4 at the sample declaration. -/
theorem claim_C4_witness :
    get_schema_input sampleDecl "inp" = .ok "prim_text" ∧
    get_schema_input sampleDecl "option" = .ok "prim_text" ∧
    get_schema_input sampleDecl "accumulator" = .ok "prim_nat" ∧
    get_schema_input sampleDecl "zzz" = .error (.portDontExist "zzz") ∧
    get_schema_input_array sampleDecl "ins" = .ok "prim_text" ∧
    get_schema_input_array sampleDecl "zzz" = .error (.portDontExist "zzz") ∧
    get_schema_output sampleDecl "out" = .ok "prim_text" ∧
    get_schema_output sampleDecl "zzz" = .error (.portDontExist "zzz") ∧
    get_schema_output_array sampleDecl "outs" = .ok "prim_text" ∧
    get_schema_output_array sampleDecl "zzz" = .error (.portDontExist "zzz") :=
  ⟨(claim_C4 sampleDecl (by decide)).1 "inp" "prim_text" (by decide),
   (claim_C4 sampleDecl (by decide)).2.1 "prim_text" (by decide),
   (claim_C4 sampleDecl (by decide)).2.2.1 "prim_nat" (by decide),
   (claim_C4 sampleDecl (by decide)).2.2.2.1 "zzz" (by decide)
     (fun _ => by decide) (fun _ => by decide),
   (claim_C4 sampleDecl (by decide)).2.2.2.2.1 "ins" "prim_text" (by decide),
   (claim_C4 sampleDecl (by decide)).2.2.2.2.2.1 "zzz" (by decide),
   (claim_C4 sampleDecl (by decide)).2.2.2.2.2.2.1 "out" "prim_text" (by decide),
   (claim_C4 sampleDecl (by decide)).2.2.2.2.2.2.2.1 "zzz" (by decide),
   (claim_C4 sampleDecl (by decide)).2.2.2.2.2.2.2.2.1 "outs" "prim_text" (by decide),
   (claim_C4 sampleDecl (by decide)).2.2.2.2.2.2.2.2.2 "zzz" (by decide)⟩

/-- C6: a successful `connect_array` on a declared output-array port inserts
the new handle under the given key — replacing any previous handle there —
and leaves every other key of that port, and every other output-array port,
unchanged. -/
theorem claim_C6 (a : ThisAgent) (p c k : String) (b : AnyBox) (h : Handle)
    (m : List (String × Handle))
    (h1 : alookup a.decl.outarr p = some c)
    (h2 : downcastSender b c = some h)
    (h3 : alookup a.outarr p = some m) :
    ∃ a2, connect_array a p k b = .ok a2 ∧
      alookup a2.outarr p = some (ainsert m k h) ∧
      alookup (ainsert m k h) k = some h ∧
      (∀ k', k' ≠ k → alookup (ainsert m k h) k' = alookup m k') ∧
      (∀ q, q ≠ p → alookup a2.outarr q = alookup a.outarr q) := by
  refine ⟨{ a with outarr := amodify a.outarr p (fun mm => ainsert mm k h) },
    ?_, ?_, alookup_ainsert_self m k h,
    (fun k' hk => alookup_ainsert_ne m k k' h hk),
    (fun q hq => alookup_amodify_ne a.outarr p q _ hq)⟩
  · simp [connect_array, h1, h2]
  · show alookup (amodify a.outarr p (fun mm => ainsert mm k h)) p = _
    rw [alookup_amodify_self, h3, Option.map_some']

/-- Witness for C6: connect the key `"k"` of the sample agent's output-array
port `"outs"`. -/
theorem claim_C6_witness :
    ∃ a2, connect_array sampleAgent "outs" "k" (.sender ⟨"prim_text", 9⟩)
        = .ok a2 ∧
      alookup a2.outarr "outs"
        = some (ainsert [] "k" (⟨"prim_text", 9⟩ : Handle)) ∧
      alookup (ainsert [] "k" (⟨"prim_text", 9⟩ : Handle)) "k"
        = some ⟨"prim_text", 9⟩ ∧
      (∀ k', k' ≠ "k" →
        alookup (ainsert [] "k" (⟨"prim_text", 9⟩ : Handle)) k'
          = alookup ([] : List (String × Handle)) k') ∧
      (∀ q, q ≠ "outs" →
        alookup a2.outarr q = alookup sampleAgent.outarr q) :=
  claim_C6 sampleAgent "outs" "prim_text" "k" (.sender ⟨"prim_text", 9⟩)
    ⟨"prim_text", 9⟩ [] (by decide) (by decide) (by decide)

/-- C7: `new` creates every scalar input receive-handle with the wake flag
`true`, and the option and accumulator receive-handles with the wake flag
`false`. -/
theorem claim_C7 (d : AgentDecl) (id : Nat) :
    (∀ n r, (n, r) ∈ (new d id).1.input → r.wake = true) ∧
    (∀ r, (new d id).1.inputOption = some r → r.wake = false) ∧
    (∀ r, (new d id).1.inputAcc = some r → r.wake = false) := by
  refine ⟨?_, ?_, ?_⟩
  · intro n r hm
    simp only [new, List.map_map, List.mem_map, Function.comp] at hm
    obtain ⟨p, _, heq⟩ := hm
    cases heq
    rfl
  · intro r hr
    cases hdo : d.option with
    | none => simp [new, hdo] at hr
    | some c =>
      simp only [new, hdo, Option.map_some'] at hr
      cases hr
      rfl
  · intro r hr
    cases hda : d.accumulator with
    | none => simp [new, hda] at hr
    | some c =>
      simp only [new, hda, Option.map_some'] at hr
      cases hr
      rfl

/-- Witness for C7 at the sample declaration: the input receiver has wake
`true`, the option and accumulator receivers have wake `false`. -/
theorem claim_C7_witness :
    ((⟨"prim_text", true, 2⟩ : Recv).wake = true) ∧
    ((⟨"prim_text", false, 0⟩ : Recv).wake = false) ∧
    ((⟨"prim_nat", false, 1⟩ : Recv).wake = false) :=
  ⟨(claim_C7 sampleDecl 7).1 "inp" ⟨"prim_text", true, 2⟩ (by decide),
   (claim_C7 sampleDecl 7).2.1 ⟨"prim_text", false, 0⟩ (by decide),
   (claim_C7 sampleDecl 7).2.2 ⟨"prim_nat", false, 1⟩ (by decide)⟩

theorem applyWireOp_decl {a : ThisAgent} {op : WireOp} {a2 : ThisAgent}
    (h : applyWireOp a op = some a2) : a2.decl = a.decl := by
  cases op with
  | wconnect p b =>
    cases h1 : alookup a.decl.output p with
    | none =>
      simp [applyWireOp, connect, stateAfter, h1] at h
      rw [← h]
    | some c =>
      cases h2 : downcastSender b c with
      | none => simp [applyWireOp, connect, stateAfter, h1, h2] at h
      | some hh =>
        simp [applyWireOp, connect, stateAfter, h1, h2] at h
        rw [← h]
  | wconnectArray p k b =>
    cases h1 : alookup a.decl.outarr p with
    | none =>
      simp [applyWireOp, connect_array, stateAfter, h1] at h
      rw [← h]
    | some c =>
      cases h2 : downcastSender b c with
      | none => simp [applyWireOp, connect_array, stateAfter, h1, h2] at h
      | some hh =>
        simp [applyWireOp, connect_array, stateAfter, h1, h2] at h
        rw [← h]
  | waddInarr p k b =>
    cases h1 : alookup a.decl.inarr p with
    | none =>
      simp [applyWireOp, add_inarr_element, stateAfter, h1] at h
      rw [← h]
    | some c =>
      cases h2 : downcastReceiver b c with
      | none => simp [applyWireOp, add_inarr_element, stateAfter, h1, h2] at h
      | some rr =>
        simp [applyWireOp, add_inarr_element, stateAfter, h1, h2] at h
        rw [← h]

/-- C8: no sequence of `connect` / `connect_array` / `add_inarr_element`
operations changes the declaration, so every schema-introspection entry
point answers the same after the sequence as before. -/
theorem claim_C8 (a : ThisAgent) (ops : List WireOp) (a2 : ThisAgent)
    (h : applyWireOps a ops = some a2) :
    a2.decl = a.decl ∧
    (∀ p, get_schema_input a2.decl p = get_schema_input a.decl p ∧
      get_schema_input_array a2.decl p = get_schema_input_array a.decl p ∧
      get_schema_output a2.decl p = get_schema_output a.decl p ∧
      get_schema_output_array a2.decl p = get_schema_output_array a.decl p) := by
  have hdecl : a2.decl = a.decl := by
    induction ops generalizing a with
    | nil =>
      simp only [applyWireOps, Option.some.injEq] at h
      rw [← h]
    | cons op rest ih =>
      simp only [applyWireOps] at h
      cases hstep : applyWireOp a op with
      | none => rw [hstep] at h; cases h
      | some a1 =>
        rw [hstep] at h
        exact (ih a1 h).trans (applyWireOp_decl hstep)
  exact ⟨hdecl, fun p => by rw [hdecl]; exact ⟨rfl, rfl, rfl, rfl⟩⟩

/-- A concrete wiring sequence for the C8 witness: a successful scalar
connect, a successful array connect, and a failed connect on an undeclared
name. -/
def c8ops : List WireOp :=
  [.wconnect "out" (.sender ⟨"prim_text", 9⟩),
   .wconnectArray "outs" "k" (.sender ⟨"prim_text", 10⟩),
   .wconnect "bogus" (.sender ⟨"prim_text", 11⟩)]

/-- The agent after running `c8ops` on the sample agent. -/
def c8res : ThisAgent := (applyWireOps sampleAgent c8ops).getD sampleAgent

/-- Witness for C8: after the concrete wiring sequence, the declaration and
all four schema tables are untouched. -/
theorem claim_C8_witness :
    c8res.decl = sampleAgent.decl ∧
    (∀ p, get_schema_input c8res.decl p = get_schema_input sampleAgent.decl p ∧
      get_schema_input_array c8res.decl p
        = get_schema_input_array sampleAgent.decl p ∧
      get_schema_output c8res.decl p = get_schema_output sampleAgent.decl p ∧
      get_schema_output_array c8res.decl p
        = get_schema_output_array sampleAgent.decl p) :=
  claim_C8 sampleAgent c8ops c8res (by decide)

theorem drain_option_eq (pending : List Msg) :
    ∀ cached, drain_option pending cached
      = if pending = [] then cached else pending.getLast? := by
  induction pending with
  | nil => intro c; rfl
  | cons m rest ih =>
    intro c
    simp only [drain_option]
    rw [ih (some m)]
    cases rest with
    | nil => simp
    | cons m2 r2 => simp [List.getLast?_cons_cons]

/-- C9: `try_recv_option` drains every pending message on the option channel
and caches the last one, returning the most recently received message (the
previously cached one when nothing is pending, `none` when nothing was ever
received); `recv_option` returns the drained cache without blocking whenever
some option message has been received, and reaches the blocking receive
exactly when the channel is empty and nothing was ever cached. -/
theorem claim_C9 (pending : List Msg) (cached : Option Msg) :
    (pending ≠ [] → (try_recv_option pending cached).1 = pending.getLast?) ∧
    (pending = [] → (try_recv_option pending cached).1 = cached) ∧
    ((try_recv_option pending cached).2.1 = []) ∧
    ((try_recv_option pending cached).2.2 = (try_recv_option pending cached).1) ∧
    (∀ m, drain_option pending cached = some m →
      recv_option pending cached = .ret m (some m)) ∧
    (recv_option pending cached = .blocks ↔ pending = [] ∧ cached = none) := by
  refine ⟨?_, ?_, rfl, rfl, ?_, ?_⟩
  · intro hne
    simp [try_recv_option, drain_option_eq, hne]
  · intro he
    simp [try_recv_option, drain_option_eq, he]
  · intro m hm
    simp [recv_option, hm]
  · constructor
    · intro hb
      cases hd : drain_option pending cached with
      | some m => simp [recv_option, hd] at hb
      | none =>
        rw [drain_option_eq] at hd
        by_cases hp : pending = []
        · rw [if_pos hp] at hd
          exact ⟨hp, hd⟩
        · rw [if_neg hp] at hd
          exact absurd (List.getLast?_eq_none_iff.mp hd) hp
    · rintro ⟨hp, hc⟩
      subst hp
      subst hc
      rfl

/-- Witness for C9: two pending messages are drained to the last one; an
empty channel returns the cache; a single pending message is returned and
cached by `recv_option`; an empty channel with nothing cached blocks. -/
theorem claim_C9_witness :
    (try_recv_option [⟨"a"⟩, ⟨"b"⟩] none).1
        = ([⟨"a"⟩, ⟨"b"⟩] : List Msg).getLast? ∧
    (try_recv_option ([] : List Msg) (some ⟨"a"⟩)).1 = some ⟨"a"⟩ ∧
    recv_option [⟨"a"⟩] none = .ret ⟨"a"⟩ (some ⟨"a"⟩) ∧
    recv_option ([] : List Msg) none = .blocks :=
  ⟨(claim_C9 [⟨"a"⟩, ⟨"b"⟩] none).1 (by decide),
   (claim_C9 ([] : List Msg) (some ⟨"a"⟩)).2.1 rfl,
   (claim_C9 [⟨"a"⟩] none).2.2.2.2.1 ⟨"a"⟩ rfl,
   (claim_C9 ([] : List Msg) none).2.2.2.2.2.mpr ⟨rfl, rfl⟩⟩

theorem enumFrom_senders_fst (l : List (String × String)) :
    ∀ n : Nat,
      ((l.enumFrom n).map
          (fun p => (p.2.1, AnyBox.sender ⟨p.2.2, 2 + p.1⟩))).map Prod.fst
        = l.map Prod.fst := by
  induction l with
  | nil => intro n; rfl
  | cons x rest ih =>
    intro n
    simp only [List.enumFrom, List.map_cons]
    rw [ih (n + 1)]

theorem foldl_ainsert_senders (l : List (String × String)) :
    ∀ (n : Nat) (s : List (String × AnyBox)),
      (l.map Prod.fst).Nodup →
      (∀ k ∈ l.map Prod.fst, k ∉ s.map Prod.fst) →
      ((l.enumFrom n).map
          (fun p => (p.2.1, (⟨p.2.2, true, 2 + p.1⟩ : Recv),
            (⟨p.2.2, 2 + p.1⟩ : Handle)))).foldl
        (fun acc t => ainsert acc t.1 (AnyBox.sender t.2.2)) s
      = s ++ (l.enumFrom n).map
          (fun p => (p.2.1, AnyBox.sender ⟨p.2.2, 2 + p.1⟩)) := by
  induction l with
  | nil => intro n s _ _; simp [List.enumFrom]
  | cons x rest ih =>
    intro n s hnd hdisj
    simp only [List.map_cons, List.nodup_cons] at hnd
    simp only [List.enumFrom, List.map_cons, List.foldl_cons]
    rw [ainsert_of_not_mem s x.1 _ (hdisj x.1 (by simp))]
    rw [ih (n + 1) (s ++ [(x.1, AnyBox.sender ⟨x.2, 2 + n⟩)]) hnd.2 ?disj]
    · simp
    case disj =>
      intro k hk
      simp only [List.map_append, List.mem_append, not_or]
      refine ⟨hdisj k (by simp [hk]), ?_⟩
      simp only [List.map_cons, List.map_nil, List.mem_cons, List.not_mem_nil,
        or_false]
      intro hcontra
      exact hnd.1 (hcontra ▸ hk)

theorem new_senders (d : AgentDecl) (id : Nat)
    (hnd : (d.input.map Prod.fst).Nodup)
    (hopt : d.option.isSome = true → "option" ∉ d.input.map Prod.fst)
    (hacc : d.accumulator.isSome = true → "accumulator" ∉ d.input.map Prod.fst) :
    (new d id).2
      = (match d.option with
          | some c => [("option", AnyBox.sender ⟨c, 0⟩)]
          | none => [])
        ++ (match d.accumulator with
          | some c => [("accumulator", AnyBox.sender ⟨c, 1⟩)]
          | none => [])
        ++ (d.input.enumFrom 0).map
            (fun p => (p.2.1, AnyBox.sender ⟨p.2.2, 2 + p.1⟩)) := by
  cases hdo : d.option with
  | some co =>
    cases hda : d.accumulator with
    | some ca =>
      have hko : "option" ∉ d.input.map Prod.fst := hopt (by rw [hdo]; rfl)
      have hka : "accumulator" ∉ d.input.map Prod.fst := hacc (by rw [hda]; rfl)
      have hdisj : ∀ k ∈ d.input.map Prod.fst,
          k ∉ (ainsert (ainsert ([] : List (String × AnyBox)) "option"
            (.sender ⟨co, 0⟩)) "accumulator" (.sender ⟨ca, 1⟩)).map Prod.fst := by
        intro k hk
        have hkeys : (ainsert (ainsert ([] : List (String × AnyBox)) "option"
            (.sender ⟨co, 0⟩)) "accumulator" (.sender ⟨ca, 1⟩)).map Prod.fst
            = ["option", "accumulator"] := rfl
        rw [hkeys]
        simp only [List.mem_cons, List.not_mem_nil, or_false]
        rintro (h1 | h1) <;> subst h1
        · exact hko hk
        · exact hka hk
      simp only [new, hdo, hda, Option.map_some']
      rw [show (d.input.enum) = d.input.enumFrom 0 from rfl]
      rw [foldl_ainsert_senders d.input 0 _ hnd hdisj]
      rfl
    | none =>
      have hko : "option" ∉ d.input.map Prod.fst := hopt (by rw [hdo]; rfl)
      have hdisj : ∀ k ∈ d.input.map Prod.fst,
          k ∉ (ainsert ([] : List (String × AnyBox)) "option"
            (.sender ⟨co, 0⟩)).map Prod.fst := by
        intro k hk
        simp only [ainsert, List.map_cons, List.map_nil, List.mem_cons,
          List.not_mem_nil, or_false]
        intro h1
        exact hko (h1 ▸ hk)
      simp only [new, hdo, hda, Option.map_some', Option.map_none']
      rw [show (d.input.enum) = d.input.enumFrom 0 from rfl]
      rw [foldl_ainsert_senders d.input 0 _ hnd hdisj]
      rfl
  | none =>
    cases hda : d.accumulator with
    | some ca =>
      have hka : "accumulator" ∉ d.input.map Prod.fst := hacc (by rw [hda]; rfl)
      have hdisj : ∀ k ∈ d.input.map Prod.fst,
          k ∉ (ainsert ([] : List (String × AnyBox)) "accumulator"
            (.sender ⟨ca, 1⟩)).map Prod.fst := by
        intro k hk
        simp only [ainsert, List.map_cons, List.map_nil, List.mem_cons,
          List.not_mem_nil, or_false]
        intro h1
        exact hka (h1 ▸ hk)
      simp only [new, hdo, hda, Option.map_some', Option.map_none']
      rw [show (d.input.enum) = d.input.enumFrom 0 from rfl]
      rw [foldl_ainsert_senders d.input 0 _ hnd hdisj]
      rfl
    | none =>
      have hdisj : ∀ k ∈ d.input.map Prod.fst,
          k ∉ ([] : List (String × AnyBox)).map Prod.fst := by
        intro k _
        simp
      simp only [new, hdo, hda, Option.map_none']
      rw [show (d.input.enum) = d.input.enumFrom 0 from rfl]
      rw [foldl_ainsert_senders d.input 0 _ hnd hdisj]
      rfl

/-- C10: right after `new`/`create_agent`, every declared scalar output is
`None`, the input-array and output-array maps are empty, no option message is
cached, the accumulator output (when declared) is the send half of the
agent's own accumulator receive channel, and the senders map holds exactly
one send-handle per eagerly created input port: `"option"` and
`"accumulator"` when declared, plus one per declared scalar input name. -/
theorem claim_C10 (d : AgentDecl) (id : Nat) (hwf : d.wf) :
    (∀ n, n ∈ d.output.map Prod.fst →
      alookup (new d id).1.output n = some none) ∧
    (∀ n m, (n, m) ∈ (new d id).1.inarr → m = []) ∧
    (∀ n m, (n, m) ∈ (new d id).1.outarr → m = []) ∧
    ((new d id).1.optionMsg = none) ∧
    (∀ c, d.accumulator = some c →
      ∃ r h, (new d id).1.inputAcc = some r ∧ (new d id).1.outputAcc = some h ∧
        h.chan = r.chan ∧ h.schema = c ∧ r.schema = c) ∧
    ((new d id).2.map Prod.fst
      = (if d.option.isSome then ["option"] else [])
        ++ (if d.accumulator.isSome then ["accumulator"] else [])
        ++ d.input.map Prod.fst) ∧
    (∀ n b, (n, b) ∈ (new d id).2 → ∃ h, b = AnyBox.sender h) := by
  obtain ⟨hnd_in, _, _, _, hopt, hacc⟩ := hwf
  refine ⟨?_, ?_, ?_, rfl, ?_, ?_, ?_⟩
  · intro n hn
    exact alookup_map_const d.output n none hn
  · intro n m hm
    have hr : (new d id).1.inarr
        = d.inarr.map (fun p => (p.1, ([] : List (String × Recv)))) := rfl
    rw [hr] at hm
    obtain ⟨p, _, heq⟩ := List.mem_map.mp hm
    cases heq
    rfl
  · intro n m hm
    have hr : (new d id).1.outarr
        = d.outarr.map (fun p => (p.1, ([] : List (String × Handle)))) := rfl
    rw [hr] at hm
    obtain ⟨p, _, heq⟩ := List.mem_map.mp hm
    cases heq
    rfl
  · intro c hc
    refine ⟨⟨c, false, 1⟩, ⟨c, 1⟩, ?_, ?_, rfl, rfl, rfl⟩
    · simp [new, hc]
    · simp [new, hc]
  · rw [new_senders d id hnd_in hopt hacc]
    simp only [List.map_append, enumFrom_senders_fst]
    cases hdo : d.option <;> cases hda : d.accumulator <;> simp
  · intro n b hm
    rw [new_senders d id hnd_in hopt hacc] at hm
    simp only [List.append_assoc, List.mem_append] at hm
    rcases hm with hm | hm | hm
    · cases hdo : d.option with
      | none => rw [hdo] at hm; cases hm
      | some c =>
        rw [hdo] at hm
        simp only [List.mem_singleton, Prod.mk.injEq] at hm
        exact ⟨⟨c, 0⟩, hm.2⟩
    · cases hda : d.accumulator with
      | none => rw [hda] at hm; cases hm
      | some c =>
        rw [hda] at hm
        simp only [List.mem_singleton, Prod.mk.injEq] at hm
        exact ⟨⟨c, 1⟩, hm.2⟩
    · obtain ⟨p, _, heq⟩ := List.mem_map.mp hm
      cases heq
      exact ⟨_, rfl⟩

/-- Witness for C10 at the sample declaration. -/
theorem claim_C10_witness :
    alookup (new sampleDecl 7).1.output "out" = some none ∧
    (new sampleDecl 7).1.optionMsg = none ∧
    (new sampleDecl 7).2.map Prod.fst
      = (if sampleDecl.option.isSome then ["option"] else [])
        ++ (if sampleDecl.accumulator.isSome then ["accumulator"] else [])
        ++ sampleDecl.input.map Prod.fst ∧
    (∃ r h, (new sampleDecl 7).1.inputAcc = some r ∧
      (new sampleDecl 7).1.outputAcc = some h ∧ h.chan = r.chan ∧
      h.schema = "prim_nat" ∧ r.schema = "prim_nat") :=
  ⟨(claim_C10 sampleDecl 7 (by decide)).1 "out" (by decide),
   (claim_C10 sampleDecl 7 (by decide)).2.2.2.1,
   (claim_C10 sampleDecl 7 (by decide)).2.2.2.2.2.1,
   (claim_C10 sampleDecl 7 (by decide)).2.2.2.2.1 "prim_nat" rfl⟩

end Fractalide
